import Mathlib

/-!
Verification of the spike plotting module (`bycycle/spikes/plts.py`).

The analytic core of the module is embedded shallowly:

* signals are lists of rationals (exact arithmetic stands in for floats
  wherever the claims are about exact index/length bookkeeping), and lists
  of reals where a square root is involved (the z-score normalizer);
* Python slice expressions `sig[a:b]` are embedded as `(sig.take b).drop a`
  (Python clamps out-of-range bounds and never raises on slices);
* Python `int(x)` (truncation toward zero) is embedded as `py_int`;
* `np.arange(0, n/fs, 1/fs)` in exact arithmetic yields the `n` points
  `i / fs` for `i < n`, embedded as `times_cyc`;
* `scipy.stats.zscore` (default `ddof=0`) computes `(x - mean) / std` with
  the population standard deviation and performs no degenerate-input check,
  embedded as `zscore`;
* `np.argmin` returns the index of the first minimal element, embedded as
  `argmin`;
* `sim_skewed_gaussian_cycle` is external and is taken as an abstract
  function parameter `synth`.
-/

/-- Python slice `xs[a:b]` for nonnegative bounds: indices `a ≤ i < b`,
clamped to the list, never failing. -/
def py_slice (xs : List α) (a b : ℕ) : List α :=
  (xs.take b).drop a

/-- Waveform Extractor: `sig_cyc = sig[start:end+1]`
(plts.py lines 49-53 and 126-131). -/
def sig_cyc (sig : List ℚ) (sample_start sample_end : ℕ) : List ℚ :=
  py_slice sig sample_start (sample_end + 1)

/-- Time axis `times_cyc = np.arange(0, cyc_len/fs, 1/fs)` in exact
arithmetic: the points `i / fs` for `i < cyc_len` (plts.py line 132). -/
def times_cyc (cyc_len : ℕ) (fs : ℚ) : List ℚ :=
  (List.range cyc_len).map (fun (i : ℕ) => (i : ℚ) / fs)

/-- Python `int()` applied to a rational: truncation toward zero. -/
def py_int (q : ℚ) : ℤ :=
  if 0 ≤ q then ⌊q⌋ else ⌈q⌉

/-- Split index `na_center = int(df_features[Na_center] * cyc_len)`
(plts.py line 142). -/
def na_center (center : ℚ) (cyc_len : ℕ) : ℤ :=
  py_int (center * cyc_len)

/-- Residual `rem_sig = sig_cyc - na_gaus` (plts.py line 144). -/
def rem_sig (sig_c na_gaus : List ℚ) : List ℚ :=
  List.zipWith (fun a b => a - b) sig_c na_gaus

/-- K-current region `rem_sig_k = rem_sig[na_center:]` (plts.py line 145). -/
def rem_sig_k (rem : List α) (s : ℕ) : List α :=
  rem.drop s

/-- Conductive region `rem_sig_cond = rem_sig[:na_center]` (plts.py line 146). -/
def rem_sig_cond (rem : List α) (s : ℕ) : List α :=
  rem.take s

/-- K-region time axis `times_k = times_cyc[na_center:]` (plts.py line 147). -/
def times_k (times : List ℚ) (s : ℕ) : List ℚ :=
  times.drop s

/-- Conductive-region time axis `times_cond = times_cyc[:na_center]`
(plts.py line 148). -/
def times_cond (times : List ℚ) (s : ℕ) : List ℚ :=
  times.take s

/-- `_infer_labels` (plts.py lines 110-121): defined on the two center
extrema only; any other input leaves `labels`/`keys` unassigned, so the
function has no result there (embedded as `none`). -/
def _infer_labels (center_e : String) : Option (List String × List String) :=
  if center_e = "trough" then
    some (["Trough", "Peak", "Inflection"],
          ["sample_trough", "sample_next_peak", "sample_end"])
  else if center_e = "peak" then
    some (["Peak", "Trough", "Inflection"],
          ["sample_peak", "sample_next_trough", "sample_end"])
  else
    none

/-- C2: for every residual waveform and every split index `s` in `[0, L]`,
the two regions produced by the Residual Decomposer have lengths summing to
`L`, and concatenating the conductive region followed by the K region
exactly reproduces the residual. -/
theorem c2_split_exact (rem : List ℚ) (s : ℕ) (hs : s ≤ rem.length) :
    (rem_sig_cond rem s).length + (rem_sig_k rem s).length = rem.length ∧
    rem_sig_cond rem s ++ rem_sig_k rem s = rem := by
  constructor
  · simp [rem_sig_cond, rem_sig_k]
    omega
  · simp [rem_sig_cond, rem_sig_k]

theorem c2_split_exact_witness :
    (rem_sig_cond ([1, 2, 3, 4] : List ℚ) 2).length +
      (rem_sig_k ([1, 2, 3, 4] : List ℚ) 2).length = 4 ∧
    rem_sig_cond ([1, 2, 3, 4] : List ℚ) 2 ++ rem_sig_k ([1, 2, 3, 4] : List ℚ) 2
      = [1, 2, 3, 4] :=
  c2_split_exact [1, 2, 3, 4] 2 (by decide)

/-- C5: counterexample — extracting with `start = 10`, `end = 12` from a
5-sample waveform returns the empty list (Python slicing clamps out-of-range
bounds; no IndexError-kind failure occurs), and extracting with
`start = 3 > end = 1` likewise returns the empty list rather than failing
with an InvalidRangeError-kind condition. -/
theorem c5_extract_counterexample :
    sig_cyc ([5, 6, 7, 8, 9] : List ℚ) 10 12 = [] ∧
    sig_cyc ([5, 6, 7, 8, 9] : List ℚ) 3 1 = [] := by
  decide

/-- C5 (amended): the Waveform Extractor never fails: Python slice semantics
clamp the bounds, so a start index at or beyond the waveform length yields
the empty sequence, and an inverted range (`end < start`) also yields the
empty sequence; no error condition of any kind is raised. -/
theorem c5_extract_never_fails (sig : List ℚ) (a b : ℕ) :
    (sig.length ≤ a → sig_cyc sig a b = []) ∧
    (b < a → sig_cyc sig a b = []) := by
  constructor
  · intro h
    apply List.drop_eq_nil_of_le
    simp
    omega
  · intro h
    apply List.drop_eq_nil_of_le
    simp
    omega

theorem c5_extract_never_fails_witness :
    sig_cyc ([1, 2] : List ℚ) 2 5 = [] ∧ sig_cyc ([1, 2] : List ℚ) 1 0 = [] :=
  ⟨(c5_extract_never_fails [1, 2] 2 5).1 (by decide),
   (c5_extract_never_fails [1, 2] 1 0).2 (by decide)⟩

/-- C6: for every waveform and every cycle record with `start ≤ end` and
both indices in bounds, the Waveform Extractor returns the sub-sequence
`sig[start : end+1]`: it has exactly `end - start + 1` samples and its
`i`-th sample is `sig[start + i]`. -/
theorem c6_extract_inclusive (sig : List ℚ) (a b : ℕ)
    (hab : a ≤ b) (hb : b < sig.length) :
    (sig_cyc sig a b).length = b - a + 1 ∧
    ∀ i, i < (sig_cyc sig a b).length →
      (sig_cyc sig a b).getD i 0 = sig.getD (a + i) 0 := by
  have hlen : (sig_cyc sig a b).length = b - a + 1 := by
    simp [sig_cyc, py_slice]
    omega
  refine ⟨hlen, ?_⟩
  intro i hi
  rw [hlen] at hi
  have hia : a + i < sig.length := by omega
  have hit : i < ((sig.take (b + 1)).drop a).length := by
    simp
    omega
  rw [show sig_cyc sig a b = (sig.take (b + 1)).drop a from rfl]
  rw [List.getD_eq_getElem _ _ hit, List.getD_eq_getElem _ _ hia]
  rw [List.getElem_drop, List.getElem_take]

theorem c6_extract_inclusive_witness :
    (sig_cyc ([1, 2, 3, 4, 5] : List ℚ) 1 3).length = 3 ∧
    (sig_cyc ([1, 2, 3, 4, 5] : List ℚ) 1 3).getD 1 0
      = ([1, 2, 3, 4, 5] : List ℚ).getD 2 0 :=
  ⟨(c6_extract_inclusive [1, 2, 3, 4, 5] 1 3 (by decide) (by decide)).1,
   (c6_extract_inclusive [1, 2, 3, 4, 5] 1 3 (by decide) (by decide)).2 1 (by decide)⟩

/-- C9: the label-inference helper returns
`(['Trough','Peak','Inflection'], ['sample_trough','sample_next_peak','sample_end'])`
for center extrema `'trough'`,
`(['Peak','Trough','Inflection'], ['sample_peak','sample_next_trough','sample_end'])`
for `'peak'`, and has no result (fails) for every other input. -/
theorem c9_infer_labels_cases :
    _infer_labels "trough"
      = some (["Trough", "Peak", "Inflection"],
              ["sample_trough", "sample_next_peak", "sample_end"]) ∧
    _infer_labels "peak"
      = some (["Peak", "Trough", "Inflection"],
              ["sample_peak", "sample_next_trough", "sample_end"]) ∧
    ∀ s, s ≠ "trough" → s ≠ "peak" → _infer_labels s = none := by
  refine ⟨rfl, rfl, ?_⟩
  intro s h1 h2
  simp [_infer_labels, h1, h2]

theorem c9_infer_labels_cases_witness :
    _infer_labels "inflection" = none :=
  c9_infer_labels_cases.2.2 "inflection" (by decide) (by decide)

/-- C1: counterexample — with primary center fraction `0.27` and cycle
length `10`, the code computes the split index `int(0.27 * 10) = 2`
(truncation), while `round(0.27 * 10)` clamped to `[0, 10]` is `3`. -/
theorem c1_split_round_counterexample :
    na_center (27 / 100) 10 = 2 ∧
    min (10 : ℤ) (max 0 (round ((27 / 100 : ℚ) * 10))) = 3 := by
  constructor
  · norm_num [na_center, py_int]
  · norm_num [round_eq]

/-- C1 (amended): the split index is `int(center_fraction_primary * L)`,
i.e. truncation toward zero (the floor, for a nonnegative center fraction),
not `round`; no explicit clamping is applied, but for a center fraction in
`[0, 1]` the index lies within `[0, L]` anyway. -/
theorem c1_split_is_floor (c : ℚ) (L : ℕ) (h0 : 0 ≤ c) (h1 : c ≤ 1) :
    na_center c L = ⌊c * L⌋ ∧ 0 ≤ na_center c L ∧ na_center c L ≤ L := by
  have hcl : (0 : ℚ) ≤ c * L := mul_nonneg h0 (by positivity)
  have hfl : na_center c L = ⌊c * L⌋ := by
    simp [na_center, py_int, hcl]
  refine ⟨hfl, ?_, ?_⟩
  · rw [hfl]
    exact Int.floor_nonneg.mpr hcl
  · rw [hfl]
    have : c * L ≤ (L : ℚ) := by
      calc c * L ≤ 1 * L := by
            apply mul_le_mul_of_nonneg_right h1 (by positivity)
      _ = (L : ℚ) := one_mul _
    calc ⌊c * (L : ℚ)⌋ ≤ ⌊(L : ℚ)⌋ := Int.floor_le_floor this
    _ = L := Int.floor_natCast L

theorem c1_split_is_floor_witness :
    na_center (27 / 100) 10 = ⌊(27 / 100 : ℚ) * 10⌋ ∧
    0 ≤ na_center (27 / 100) 10 ∧ na_center (27 / 100) 10 ≤ 10 :=
  c1_split_is_floor (27 / 100) 10 (by norm_num) (by norm_num)

/-- Minimum value of a nonempty list (helper for `argmin`). -/
def min_val : List ℚ → ℚ
  | [] => 0
  | [x] => x
  | x :: y :: r => min x (min_val (y :: r))

/-- `np.argmin`: index of the first minimal element (plts.py lines 216, 220). -/
def argmin : List ℚ → ℕ
  | [] => 0
  | [_] => 0
  | x :: y :: r => if min_val (y :: r) < x then argmin (y :: r) + 1 else 0

theorem min_val_le (xs : List ℚ) :
    ∀ j, j < xs.length → min_val xs ≤ xs.getD j 0 := by
  induction xs with
  | nil => intro j hj; simp at hj
  | cons x t ih =>
    intro j hj
    cases t with
    | nil =>
      have hj0 : j = 0 := by simpa using hj
      subst hj0
      simp [min_val]
    | cons y r =>
      cases j with
      | zero =>
        simp only [min_val, List.getD_cons_zero]
        exact min_le_left x (min_val (y :: r))
      | succ k =>
        have hk : k < (y :: r).length := by
          simpa using Nat.lt_of_succ_lt_succ hj
        calc min_val (x :: y :: r) ≤ min_val (y :: r) := by
              simp only [min_val]
              exact min_le_right x (min_val (y :: r))
        _ ≤ (y :: r).getD k 0 := ih k hk
        _ = (x :: y :: r).getD (k + 1) 0 := by simp

theorem argmin_lt_length (xs : List ℚ) (h : xs ≠ []) :
    argmin xs < xs.length := by
  induction xs with
  | nil => exact absurd rfl h
  | cons x t ih =>
    cases t with
    | nil => simp [argmin]
    | cons y r =>
      by_cases hlt : min_val (y :: r) < x
      · have := ih (by simp)
        simp only [argmin, if_pos hlt]
        simpa using Nat.succ_lt_succ this
      · simp [argmin, hlt]

theorem getD_argmin (xs : List ℚ) (h : xs ≠ []) :
    xs.getD (argmin xs) 0 = min_val xs := by
  induction xs with
  | nil => exact absurd rfl h
  | cons x t ih =>
    cases t with
    | nil => simp [argmin, min_val]
    | cons y r =>
      by_cases hlt : min_val (y :: r) < x
      · have hrec := ih (by simp)
        simp only [argmin, if_pos hlt, min_val]
        rw [List.getD_cons_succ, hrec]
        exact (min_eq_right (le_of_lt hlt)).symm
      · simp only [argmin, if_neg hlt, min_val]
        rw [List.getD_cons_zero]
        exact (min_eq_left (le_of_not_lt hlt)).symm

/-- Alignment point for all generated spikes:
`align_point = np.argmin(spikes_gen[0]) / fs` (plts.py line 216). -/
def align_point (fs : ℚ) (spikes_gen : List (List ℚ)) : ℚ :=
  (argmin (spikes_gen.getD 0 []) : ℚ) / fs

/-- Per-spike alignment shift: `shift = trough - align_point` where
`trough = np.argmin(spikes_gen[i]) / fs` (plts.py lines 220-222). -/
def spike_shift (fs : ℚ) (spikes_gen : List (List ℚ)) (i : ℕ) : ℚ :=
  (argmin (spikes_gen.getD i []) : ℚ) / fs - align_point fs spikes_gen

/-- Aligned time axis for spike `i`:
`align_times = [(x / fs) - shift for x in range(1, 1 + len(spikes_gen[i]))]`
(plts.py lines 224-226). -/
def align_times (fs : ℚ) (spikes_gen : List (List ℚ)) (i : ℕ) : List ℚ :=
  (List.range (spikes_gen.getD i []).length).map
    (fun (x : ℕ) => ((x : ℚ) + 1) / fs - spike_shift fs spikes_gen i)

/-- C10: when plotting all generated spikes, the aligned time coordinate of
every spike's minimum sample (the sample at `np.argmin` of that spike, which
is indeed a minimal sample) equals `(argmin(spikes_gen[0]) + 1) / fs` — the
same value for every spike in the collection. -/
theorem c10_aligned_minima_coincide (fs : ℚ) (spikes_gen : List (List ℚ))
    (i : ℕ) (hi : i < spikes_gen.length) (hne : spikes_gen.getD i [] ≠ []) :
    (align_times fs spikes_gen i).getD (argmin (spikes_gen.getD i [])) 0
      = ((argmin (spikes_gen.getD 0 []) : ℚ) + 1) / fs ∧
    ∀ j, j < (spikes_gen.getD i []).length →
      (spikes_gen.getD i []).getD (argmin (spikes_gen.getD i [])) 0
        ≤ (spikes_gen.getD i []).getD j 0 := by
  constructor
  · have hm : argmin (spikes_gen.getD i []) < (spikes_gen.getD i []).length :=
      argmin_lt_length _ hne
    have hmr : argmin (spikes_gen.getD i [])
        < (List.range (spikes_gen.getD i []).length).length := by
      simpa using hm
    have hmm : argmin (spikes_gen.getD i [])
        < (align_times fs spikes_gen i).length := by
      simpa [align_times] using hm
    rw [align_times, List.getD_eq_getElem _ _ (by simpa [align_times] using hm),
        List.getElem_map, List.getElem_range]
    rw [spike_shift, align_point]
    ring
  · intro j hj
    rw [getD_argmin _ hne]
    exact min_val_le _ j hj

theorem c10_aligned_minima_coincide_witness :
    (align_times 2 ([[3, 1, 2], [5, 4, 6]] : List (List ℚ)) 1).getD (argmin [5, 4, 6]) 0
      = ((argmin [3, 1, 2] : ℚ) + 1) / 2 ∧
    (([[3, 1, 2], [5, 4, 6]] : List (List ℚ)).getD 1 []).getD
        (argmin (([[3, 1, 2], [5, 4, 6]] : List (List ℚ)).getD 1 [])) 0
      ≤ (([[3, 1, 2], [5, 4, 6]] : List (List ℚ)).getD 1 []).getD 0 0 :=
  ⟨(c10_aligned_minima_coincide 2 [[3, 1, 2], [5, 4, 6]] 1 (by decide) (by decide)).1,
   (c10_aligned_minima_coincide 2 [[3, 1, 2], [5, 4, 6]] 1 (by decide) (by decide)).2
     0 (by decide)⟩

/-- Skewed-Gaussian shape parameters of one current component
(`<Component>_center/_std/_alpha/_height` columns of the feature row). -/
structure GausParams where
  center : ℚ
  sd : ℚ
  alpha : ℚ
  height : ℚ

/-- One Cycle Record: the fields of a feature row used by
`plot_gaussian_fit`. -/
structure CycleRow where
  sample_start : ℕ
  sample_end : ℕ
  na : GausParams
  cond : GausParams
  k : GausParams

/-- All intermediate values of the decomposition core of
`plot_gaussian_fit` (plts.py lines 126-190), excluding the rendering calls. -/
structure FitOutput where
  sig_c : List ℚ
  cyc_len : ℕ
  times_c : List ℚ
  na_gaus : List ℚ
  split : ℕ
  rem : List ℚ
  rem_k : List ℚ
  rem_cond : List ℚ
  t_k : List ℚ
  t_cond : List ℚ
  cond_gaus : List ℚ
  k_gaus : List ℚ

/-- Decomposition core of `plot_gaussian_fit` (plts.py lines 126-190):
extract the cycle, synthesize the Na component over the whole cycle,
subtract it, split the residual at `int(Na_center * cyc_len)`, and
synthesize the conductive and K components over their own regions.  The
external `sim_skewed_gaussian_cycle` is the abstract parameter `synth`,
called with `(duration, fs, params)`. -/
def plot_gaussian_fit (synth : ℚ → ℚ → GausParams → List ℚ)
    (sig : List ℚ) (fs : ℚ) (row : CycleRow) : FitOutput :=
  let sc := sig_cyc sig row.sample_start row.sample_end
  let L := sc.length
  let tc := times_cyc L fs
  let ng := synth ((L : ℚ) / fs) fs row.na
  let s := (na_center row.na.center L).toNat
  let r := rem_sig sc ng
  let rk := rem_sig_k r s
  let rc := rem_sig_cond r s
  let tk := times_k tc s
  let tcond := times_cond tc s
  let cg := synth ((rc.length : ℚ) / fs) fs row.cond
  let kg := synth ((rk.length : ℚ) / fs) fs row.k
  ⟨sc, L, tc, ng, s, r, rk, rc, tk, tcond, cg, kg⟩

/-- C8: the Multi-Component Fit Assembler synthesizes the conductive
component with window length `len(rem_sig_cond) / fs` and the K component
with window length `len(rem_sig_k) / fs` (one synthesizer call per region,
each with that region's own duration), and the K region's time axis begins
at `split / fs` rather than at 0 (when the split is interior, so the K
region is nonempty). -/
theorem c8_per_region_synthesis (synth : ℚ → ℚ → GausParams → List ℚ)
    (sig : List ℚ) (fs : ℚ) (row : CycleRow) :
    (plot_gaussian_fit synth sig fs row).cond_gaus
      = synth (((plot_gaussian_fit synth sig fs row).rem_cond.length : ℚ) / fs)
          fs row.cond ∧
    (plot_gaussian_fit synth sig fs row).k_gaus
      = synth (((plot_gaussian_fit synth sig fs row).rem_k.length : ℚ) / fs)
          fs row.k ∧
    ((plot_gaussian_fit synth sig fs row).split
        < (plot_gaussian_fit synth sig fs row).cyc_len →
      (plot_gaussian_fit synth sig fs row).t_k.head?
        = some (((plot_gaussian_fit synth sig fs row).split : ℚ) / fs)) := by
  refine ⟨rfl, rfl, ?_⟩
  intro hs
  have hs2 : (plot_gaussian_fit synth sig fs row).split
      < (sig_cyc sig row.sample_start row.sample_end).length := hs
  show (times_k (times_cyc (sig_cyc sig row.sample_start row.sample_end).length fs)
      (plot_gaussian_fit synth sig fs row).split).head? = _
  set m := (plot_gaussian_fit synth sig fs row).split with hm
  rw [times_k, times_cyc, List.head?_eq_getElem?, List.getElem?_drop,
      Nat.add_zero, List.getElem?_map, List.getElem?_range hs2]
  rfl

theorem c8_per_region_synthesis_witness :
    (plot_gaussian_fit (fun d f _ => ([d, f] : List ℚ)) [0, 1, 2, 3] 1
        ⟨0, 3, ⟨1/2, 1, 1, 1⟩, ⟨1/3, 1, 1, 1⟩, ⟨2/3, 1, 1, 1⟩⟩).cond_gaus
      = (fun (d : ℚ) (f : ℚ) (_ : GausParams) => ([d, f] : List ℚ))
          (((plot_gaussian_fit (fun d f _ => ([d, f] : List ℚ)) [0, 1, 2, 3] 1
            ⟨0, 3, ⟨1/2, 1, 1, 1⟩, ⟨1/3, 1, 1, 1⟩, ⟨2/3, 1, 1, 1⟩⟩).rem_cond.length : ℚ) / 1)
          1 ⟨1/3, 1, 1, 1⟩ ∧
    (plot_gaussian_fit (fun d f _ => ([d, f] : List ℚ)) [0, 1, 2, 3] 1
        ⟨0, 3, ⟨1/2, 1, 1, 1⟩, ⟨1/3, 1, 1, 1⟩, ⟨2/3, 1, 1, 1⟩⟩).t_k.head?
      = some (((plot_gaussian_fit (fun d f _ => ([d, f] : List ℚ)) [0, 1, 2, 3] 1
          ⟨0, 3, ⟨1/2, 1, 1, 1⟩, ⟨1/3, 1, 1, 1⟩, ⟨2/3, 1, 1, 1⟩⟩).split : ℚ) / 1) :=
  ⟨(c8_per_region_synthesis (fun d f _ => ([d, f] : List ℚ)) [0, 1, 2, 3] 1
      ⟨0, 3, ⟨1/2, 1, 1, 1⟩, ⟨1/3, 1, 1, 1⟩, ⟨2/3, 1, 1, 1⟩⟩).1,
   (c8_per_region_synthesis (fun d f _ => ([d, f] : List ℚ)) [0, 1, 2, 3] 1
      ⟨0, 3, ⟨1/2, 1, 1, 1⟩, ⟨1/3, 1, 1, 1⟩, ⟨2/3, 1, 1, 1⟩⟩).2.2
     (by norm_num [plot_gaussian_fit, sig_cyc, py_slice, na_center, py_int])⟩

/-- Mean of a list of reals (as computed by `scipy.stats.zscore`). -/
noncomputable def zmean (xs : List ℝ) : ℝ :=
  xs.sum / (xs.length : ℝ)

/-- Population variance (`ddof = 0`, the `scipy.stats.zscore` default). -/
noncomputable def zvar (xs : List ℝ) : ℝ :=
  (xs.map (fun x => (x - zmean xs) ^ 2)).sum / (xs.length : ℝ)

/-- Population standard deviation. -/
noncomputable def zstd (xs : List ℝ) : ℝ :=
  Real.sqrt (zvar xs)

/-- Region Normalizer: `scipy.stats.zscore` (plts.py lines 160-161),
`(x - mean) / std` elementwise with the population standard deviation and
no degenerate-input check of any kind. -/
noncomputable def zscore (xs : List ℝ) : List ℝ :=
  xs.map (fun x => (x - zmean xs) / zstd xs)

open Classical in
/-- Modelled from the spec, for comparison with the source normalizer
`zscore`: section 4.4 and the section 7 error taxonomy require the Region
Normalizer to fail with `EmptyRegionError` on an empty region and with
`DegenerateRegionError` on a constant (zero-variance) region. -/
noncomputable def zscore_spec (xs : List ℝ) : Except String (List ℝ) :=
  if xs = [] then Except.error "EmptyRegionError"
  else if zstd xs = 0 then Except.error "DegenerateRegionError"
  else Except.ok (zscore xs)

theorem sum_map_sub_div (xs : List ℝ) (m s : ℝ) :
    (xs.map (fun x => (x - m) / s)).sum = (xs.sum - xs.length * m) / s := by
  induction xs with
  | nil => simp
  | cons x t ih =>
    simp only [List.map_cons, List.sum_cons, ih, div_add_div_same, List.length_cons]
    congr 1
    push_cast
    ring

theorem sum_map_sub_div_sq (xs : List ℝ) (m s : ℝ) :
    (xs.map (fun x => ((x - m) / s) ^ 2)).sum
      = (xs.map (fun x => (x - m) ^ 2)).sum / s ^ 2 := by
  induction xs with
  | nil => simp
  | cons x t ih =>
    rw [List.map_cons, List.sum_cons, ih, List.map_cons, List.sum_cons,
        div_pow, div_add_div_same]

theorem zvar_nonneg (xs : List ℝ) : 0 ≤ zvar xs := by
  apply div_nonneg
  · apply List.sum_nonneg
    intro y hy
    simp only [List.mem_map] at hy
    obtain ⟨x, _, rfl⟩ := hy
    positivity
  · positivity

theorem zmean_replicate (n : ℕ) (c : ℝ) (hn : (n : ℝ) ≠ 0) :
    zmean (List.replicate n c) = c := by
  rw [zmean, List.sum_replicate, List.length_replicate, nsmul_eq_mul]
  field_simp

theorem zstd_replicate (n : ℕ) (c : ℝ) (hn : 1 ≤ n) :
    zstd (List.replicate n c) = 0 := by
  have hn0 : (n : ℝ) ≠ 0 := Nat.cast_ne_zero.mpr (by omega)
  have hv : zvar (List.replicate n c) = 0 := by
    rw [zvar, List.length_replicate, zmean_replicate n c hn0, List.map_replicate]
    simp
  rw [zstd, hv, Real.sqrt_zero]

/-- C3: counterexample — on the all-zero region of length 5 the standard
deviation is 0, yet the Region Normalizer (`scipy.stats.zscore`) returns a
5-element output instead of failing: no DegenerateRegionError-kind condition
exists in the code (in IEEE arithmetic the outputs are the silent result of
dividing by zero), whereas the spec-modelled normalizer reports the error. -/
theorem c3_zscore_counterexample :
    zstd (List.replicate 5 (0 : ℝ)) = 0 ∧
    (zscore (List.replicate 5 (0 : ℝ))).length = 5 ∧
    zscore_spec (List.replicate 5 (0 : ℝ)) = Except.error "DegenerateRegionError" := by
  have h0 : zstd (List.replicate 5 (0 : ℝ)) = 0 := zstd_replicate 5 0 (by omega)
  refine ⟨h0, ?_, ?_⟩
  · rw [zscore, List.length_map, List.length_replicate]
  · rw [zscore_spec, if_neg (by simp), if_pos h0]

/-- C3 (amended): on a constant region the Region Normalizer raises no
error: the region's standard deviation is 0 and the normalizer still
returns one output per input sample, unconditionally performing the
division by zero (which floating point turns into NaNs) — the degenerate
case is never detected or reported. -/
theorem c3_zscore_silent_on_constant (c : ℝ) (n : ℕ) (hn : 1 ≤ n) :
    zstd (List.replicate n c) = 0 ∧ (zscore (List.replicate n c)).length = n := by
  refine ⟨zstd_replicate n c hn, ?_⟩
  rw [zscore, List.length_map, List.length_replicate]

theorem c3_zscore_silent_on_constant_witness :
    zstd (List.replicate 5 (1 : ℝ)) = 0 ∧
    (zscore (List.replicate 5 (1 : ℝ))).length = 5 :=
  c3_zscore_silent_on_constant 1 5 (by omega)

/-- C4: counterexample — splitting the residual `[1, 2, 3]` at index 0
yields an empty conductive region, and the Region Normalizer applied to it
returns the empty list: no EmptyRegionError-kind condition is raised
(`scipy.stats.zscore` of an empty array is an empty array), whereas the
spec-modelled normalizer reports the error. -/
theorem c4_empty_region_counterexample :
    rem_sig_cond ([1, 2, 3] : List ℝ) 0 = [] ∧
    zscore (rem_sig_cond ([1, 2, 3] : List ℝ) 0) = [] ∧
    zscore_spec (rem_sig_cond ([1, 2, 3] : List ℝ) 0) = Except.error "EmptyRegionError" := by
  refine ⟨rfl, rfl, ?_⟩
  rw [show rem_sig_cond ([1, 2, 3] : List ℝ) 0 = [] from rfl]
  rw [zscore_spec, if_pos rfl]

/-- C4 (amended): a split at index 0 (resp. at index L) produces an empty
conductive (resp. K) region, and downstream normalization of the empty
region silently returns an empty output; it does not fail with any error
condition at all. -/
theorem c4_empty_region_no_error (rem : List ℝ) :
    rem_sig_cond rem 0 = [] ∧ rem_sig_k rem rem.length = [] ∧
    zscore (rem_sig_cond rem 0) = [] ∧ zscore (rem_sig_k rem rem.length) = [] := by
  have h1 : rem_sig_cond rem 0 = [] := rfl
  have h2 : rem_sig_k rem rem.length = [] := List.drop_length rem
  exact ⟨h1, h2, by rw [h1]; rfl, by rw [h2]; rfl⟩

/-- C7: on a non-degenerate region (length at least 2, nonzero standard
deviation) the Region Normalizer returns exactly one output per sample,
each equal to `(x - mean) / std`, and the outputs have mean exactly 0 and
standard deviation exactly 1 — in particular within the claimed tolerance
of `1e-9`. -/
theorem c7_zscore_standardizes (xs : List ℝ) (h2 : 2 ≤ xs.length)
    (hsd : zstd xs ≠ 0) :
    (zscore xs).length = xs.length ∧
    (∀ i, i < xs.length →
      (zscore xs).getD i 0 = (xs.getD i 0 - zmean xs) / zstd xs) ∧
    zmean (zscore xs) = 0 ∧ zstd (zscore xs) = 1 ∧
    |zmean (zscore xs) - 0| ≤ 1 / 1000000000 ∧
    |zstd (zscore xs) - 1| ≤ 1 / 1000000000 := by
  have hN : (xs.length : ℝ) ≠ 0 := by
    have h0 : xs.length ≠ 0 := by omega
    exact_mod_cast h0
  have hlen : (zscore xs).length = xs.length := by
    rw [zscore, List.length_map]
  have hnum : xs.sum - (xs.length : ℝ) * (xs.sum / (xs.length : ℝ)) = 0 := by
    field_simp
  have hsum : (zscore xs).sum = 0 := by
    rw [zscore, sum_map_sub_div, zmean, hnum, zero_div]
  have hmean0 : zmean (zscore xs) = 0 := by
    rw [zmean, hsum, zero_div]
  have hvne : zvar xs ≠ 0 := by
    intro h0
    exact hsd (by rw [zstd, h0, Real.sqrt_zero])
  have hs2 : zstd xs ^ 2 = zvar xs := Real.sq_sqrt (zvar_nonneg xs)
  have hvar1 : zvar (zscore xs) = 1 := by
    rw [zvar, hmean0, hlen]
    simp only [sub_zero]
    rw [zscore, List.map_map]
    simp only [Function.comp_def]
    rw [sum_map_sub_div_sq, div_right_comm, ← zvar, hs2, div_self hvne]
  have hstd1 : zstd (zscore xs) = 1 := by
    rw [zstd, hvar1, Real.sqrt_one]
  refine ⟨hlen, ?_, hmean0, hstd1, ?_, ?_⟩
  · intro i hi
    have hi2 : i < (zscore xs).length := by rw [hlen]; exact hi
    rw [List.getD_eq_getElem _ _ hi2, List.getD_eq_getElem _ _ hi]
    simp only [zscore, List.getElem_map]
  · rw [hmean0]
    norm_num
  · rw [hstd1]
    norm_num

theorem zstd_zero_two : zstd ([0, 2] : List ℝ) = 1 := by
  have hm : zmean ([0, 2] : List ℝ) = 1 := by
    rw [zmean]
    norm_num
  have hv : zvar ([0, 2] : List ℝ) = 1 := by
    rw [zvar, hm]
    norm_num
  rw [zstd, hv, Real.sqrt_one]

theorem c7_zscore_standardizes_witness :
    (zscore ([0, 2] : List ℝ)).length = ([0, 2] : List ℝ).length ∧
    zmean (zscore ([0, 2] : List ℝ)) = 0 ∧ zstd (zscore ([0, 2] : List ℝ)) = 1 :=
  have hsd : zstd ([0, 2] : List ℝ) ≠ 0 := by
    rw [zstd_zero_two]
    norm_num
  ⟨(c7_zscore_standardizes [0, 2] (by simp) hsd).1,
   (c7_zscore_standardizes [0, 2] (by simp) hsd).2.2.1,
   (c7_zscore_standardizes [0, 2] (by simp) hsd).2.2.2.1⟩
